import Mathlib

/-!
Verification of the SDA runtime core of the cothority repository.

The development shallowly embeds the node-side runtime found in
`lib/sda/host.go` and the local in-process transport found in
`network/local.go`.  UUIDs are modelled as natural numbers with `0`
playing the role of `uuid.Nil`; byte slices are lists of naturals; the
secure transport (an external collaborator of the core) is modelled as
an always-successful emission of the outgoing frame, so a function that
returns `Except.ok out` has handed exactly the frame `out` to the
transport and a function that returns `Except.error _` has emitted
nothing.
-/

namespace Cothority

/-! ## Data model: Entity, EntityList, Tree, TreeNode, Token -/

/-- A node's long-lived identity.  Entities are value objects compared by
their identifier, so only the identifier is modelled. -/
structure Entity where
  Id : Nat
deriving DecidableEq, Repr

/-- One slot of a tree: its identifier and the entity it references. -/
structure TreeNode where
  Id : Nat
  Entity : Entity
deriving DecidableEq, Repr

/-- A rooted tree over entities of one entity list.  The claims only need
identifier-level structure, so the node set is kept as a flat list. -/
structure Tree where
  Id : Nat
  EntityListId : Nat
  Nodes : List TreeNode
deriving DecidableEq, Repr

/-- An ordered list of entities with a stable identifier (a.k.a. Roster). -/
structure EntityList where
  Id : Nat
  Entities : List Entity
deriving DecidableEq, Repr

/-- Modelled from the spec: `tree.go` is not among the sources; per the spec
a tree node is found by its stable identifier. -/
def Tree.GetNode (t : Tree) (nid : Nat) : Option TreeNode :=
  t.Nodes.find? (fun tn => tn.Id == nid)

/-- Modelled from the spec: `tree.go` is not among the sources; a tree node
belongs to a tree when its identifier occurs among the tree's nodes.
The Go code may call this with a nil receiver (an unresolvable node); the
nil case is handled at each call site before this function is reached. -/
def TreeNode.IsInTree (tn : TreeNode) (t : Tree) : Bool :=
  decide (tn.Id ∈ t.Nodes.map TreeNode.Id)

/-- The session address of one running protocol instance. -/
structure Token where
  ProtocolID : Nat
  EntityListID : Nat
  TreeID : Nat
  RoundID : Nat
  TreeNodeID : Nat
deriving DecidableEq, Repr

/-- Modelled from the spec: `token.go` is not among the sources; `host.go`
only calls `from.OtherToken(to)`.  Per the spec the peer-view operation
produces the token the recipient must use, by substituting the recipient's
TreeNodeID while keeping ProtocolID, RosterID, TreeID and RoundID. -/
def Token.OtherToken (t : Token) (tn : TreeNode) : Token :=
  { t with TreeNodeID := tn.Id }

/-- The payload envelope crossing the wire.  The decoded payload `Msg` is an
abstract value (a natural number); `MsgSlice` is its serialized form.  The
originator-entity field is set only on the receive path and is irrelevant
to the verified claims, so it is omitted. -/
structure SDAData where
  Msg : Option Nat
  MsgSlice : List Nat
  MsgType : Nat
  From : Token
  To : Token
deriving DecidableEq, Repr

/-- The flattened wire description of a tree.  Only the fields inspected by
`host.go` (`NodeId`, `EntityId`) are structural; the rest of the marshal is
abstracted into `Body` and consumed by the `MakeTree` parameter. -/
structure TreeMarshal where
  NodeId : Nat
  EntityId : Nat
  Body : Nat
deriving DecidableEq, Repr

/-- The external type-registry and serializer of the `network` package
(an external collaborator): `marshal` may fail, `typeOf` yields the stable
type tag of a payload. -/
structure Network where
  marshal : Nat → Except String (List Nat)
  typeOf : Nat → Nat

/-! ## Association-list helpers (Go maps are modelled as shadowing
association lists: insertion conses at the front, lookup takes the first
binding). -/

def alookup {α β : Type} [DecidableEq α] (k : α) : List (α × β) → Option β
  | [] => none
  | (a, b) :: t => if k = a then some b else alookup k t

/-! ## Host state -/

/-- Outgoing frames handed to the transport. -/
inductive OutMsg where
  | requestTree (dest : Entity) (treeId : Nat)
  | requestEntityList (dest : Entity) (entityListId : Nat)
  | sdaData (dest : Entity) (sda : SDAData)
deriving DecidableEq, Repr

/-- A delivery of an envelope to the protocol instance addressed by a token. -/
structure Dispatch where
  token : Token
  sda : SDAData
deriving DecidableEq, Repr

/-- The mutable state of a `Host`: the stores of known entities, entity
lists and trees, the two pending queues, and the instance registry (the
registry maps token hashes to instances; since instances are opaque to the
claims it is modelled as the list of registered tokens). -/
structure Host where
  entities : List Nat
  entityLists : List (Nat × EntityList)
  trees : List (Nat × Tree)
  pendingTreeMarshal : List (Nat × List TreeMarshal)
  pendingSDAs : List SDAData
  instances : List Token
deriving DecidableEq, Repr

/-- Modelled from the spec: the `protocolMapper` sources are absent; per the
spec the registry is a map token ↔ instance, so `Instance` answers the
registered token when the (possibly nil) token is registered. -/
def Host.mapperInstance (h : Host) (t : Option Token) : Option Token :=
  t.bind (fun tok => if tok ∈ h.instances then some tok else none)

/-- Modelled from the spec: existence test of the instance registry. -/
def Host.mapperExists (h : Host) (tok : Token) : Bool :=
  decide (tok ∈ h.instances)

/-- `SendRaw` serializes and pushes a frame onto the connection to the
entity, opening one if necessary.  The transport is an external
collaborator; it is modelled as an always-successful emission of the frame. -/
def Host.SendRaw (_h : Host) (_e : Entity) (msg : OutMsg) : Except String OutMsg :=
  .ok msg

/-- `protocolInstantiate` creates a new instance for a token: following the
Go code it requires the protocol, the tree and the entity list to be known
and the node to be represented in the tree, then registers the token.  The
`tn` argument is the (possibly nil) result of a node lookup; a nil node is
never represented in the tree. -/
def protocolInstantiate (protocols : List Nat) (h : Host) (tok : Token)
    (tn : Option TreeNode) : Except String Host :=
  if tok.ProtocolID ∉ protocols then .error "Protocol doesn't exist"
  else match alookup tok.TreeID h.trees with
    | none => .error "Tree does not exists"
    | some tree =>
      if (alookup tok.EntityListID h.entityLists).isNone then
        .error "EntityList does not exists"
      else match tn with
        | none => .error "We are not represented in the tree"
        | some tn =>
          if ¬ tn.IsInTree tree then .error "We are not represented in the tree"
          else .ok { h with instances := tok :: h.instances }

/-- `TreeNodeFromToken` resolves the tree node a token addresses. -/
def Host.TreeNodeFromToken (h : Host) (t : Token) : Except String TreeNode :=
  match alookup t.TreeID h.trees with
  | none => .error "Didn't find tree"
  | some tree =>
    match tree.GetNode t.TreeNodeID with
    | none => .error "Didn't find treenode"
    | some tn => .ok tn

/-- `sendSDAData` marshals the inner message separately from the envelope
(the decoded `Msg` is blanked so only `MsgSlice` crosses the wire) and
sends the envelope to the entity. -/
def Host.sendSDAData (net : Network) (h : Host) (e : Entity) (sda : SDAData) :
    Except String OutMsg :=
  match sda.Msg with
  | none => .error "Can't send nil-packet"
  | some m =>
    match net.marshal m with
    | .error err => .error ("Error marshaling  message: " ++ err)
    | .ok b =>
      h.SendRaw e (OutMsg.sdaData e
        { sda with MsgSlice := b, MsgType := net.typeOf m, Msg := none })

/-- `SendSDAToTreeNode` sends a message from the instance at token `fr` to
the tree node `to`: after checking the sender token it wraps the payload in
an `SDAData` whose recipient token is `fr.OtherToken to`. -/
def Host.SendSDAToTreeNode (net : Network) (h : Host) (fr : Option Token)
    (toN : Option TreeNode) (msg : Nat) : Except String OutMsg :=
  if h.mapperInstance fr = none then
    .error "No protocol instance registered with this token."
  else match fr with
    | none => .error "From-token is nil"
    | some fr =>
      match toN with
      | none => .error "To-token is nil"
      | some tn =>
        h.sendSDAData net tn.Entity
          { Msg := some msg, MsgSlice := [], MsgType := 0,
            From := fr, To := fr.OtherToken tn }

/-- `SendSDA` resolves the recipient token to a tree node and delegates to
`SendSDAToTreeNode`. -/
def Host.SendSDA (net : Network) (h : Host) (fr : Option Token) (toTok : Token)
    (msg : Nat) : Except String OutMsg :=
  match h.TreeNodeFromToken toTok with
  | .error e => .error e
  | .ok tn => h.SendSDAToTreeNode net fr (some tn) msg

/-! ## Dispatcher: SDAData processing and pending-topology resolution -/

/-- The observable result of one dispatcher step: the new host state, the
frames emitted on the network, the deliveries made to instances, and the
error (logged locally, never sent to a peer). -/
structure StepResult where
  host : Host
  out : List OutMsg
  events : List Dispatch
  err : Option String
deriving DecidableEq, Repr

/-- `addPendingSda` appends an envelope to the pending-envelopes queue. -/
def Host.addPendingSda (h : Host) (sda : SDAData) : Host :=
  { h with pendingSDAs := h.pendingSDAs ++ [sda] }

/-- `requestTree` queues the envelope as pending and asks the sender for the
tree the envelope's recipient token refers to. -/
def Host.requestTree (h : Host) (sender : Entity) (sda : SDAData) : StepResult :=
  { host := h.addPendingSda sda,
    out := [OutMsg.requestTree sender sda.To.TreeID],
    events := [], err := none }

/-- `processSDAMessage` dispatches a received envelope: unknown protocol is
rejected with a local error; unknown entity list or tree triggers the
pending queue plus a tree request; otherwise the instance is looked up
(instantiating it on demand) and the envelope is delivered to it. -/
def Host.processSDAMessage (protocols : List Nat) (h : Host) (sender : Entity)
    (sda : SDAData) : StepResult :=
  if sda.To.ProtocolID ∉ protocols then
    ⟨h, [], [], some "Protocol does not exists from token"⟩
  else if (alookup sda.To.EntityListID h.entityLists).isNone then
    h.requestTree sender sda
  else match alookup sda.To.TreeID h.trees with
    | none => h.requestTree sender sda
    | some tree =>
      match
        (if h.mapperExists sda.To then .ok h
         else protocolInstantiate protocols h sda.To
           (tree.GetNode sda.To.TreeNodeID) : Except String Host) with
      | .error e => ⟨h, [], [], some e⟩
      | .ok h' => ⟨h', [], [⟨sda.To, sda⟩], none⟩

/-- One iteration of the `checkPendingSDA` scan: an envelope referring to
the new tree is dispatched (after instantiating its instance), all others
are skipped.  Mirroring the Go code, the envelope is *not* removed from the
pending queue in either case. -/
def Host.checkPendingSDAStep (protocols : List Nat) (t : Tree)
    (acc : Host × List Dispatch) (sda : SDAData) : Host × List Dispatch :=
  if sda.To.TreeID = t.Id then
    match t.GetNode sda.To.TreeNodeID with
    | none => acc
    | some node =>
      match protocolInstantiate protocols acc.1 sda.To (some node) with
      | .error _ => acc
      | .ok h' => (h', acc.2 ++ [⟨sda.To, sda⟩])
  else acc

/-- `checkPendingSDA` rescans the whole pending-envelopes queue against a
newly added tree and dispatches every envelope that refers to it. -/
def Host.checkPendingSDA (protocols : List Nat) (h : Host) (t : Tree) :
    Host × List Dispatch :=
  h.pendingSDAs.foldl (Host.checkPendingSDAStep protocols t) (h, [])

/-- `AddTree` stores a tree (overwriting any tree with the same identifier)
and rescans the pending envelopes. -/
def Host.AddTree (protocols : List Nat) (h : Host) (t : Tree) :
    Host × List Dispatch :=
  Host.checkPendingSDA protocols { h with trees := (t.Id, t) :: h.trees } t

/-- `AddEntityList` stores an entity list (overwriting on equal identifier). -/
def Host.AddEntityList (h : Host) (il : EntityList) : Host :=
  { h with entityLists := (il.Id, il) :: h.entityLists }

/-- `addPendingTreeMarshal` appends a tree marshal to the pending-trees
table under its entity-list identifier. -/
def Host.addPendingTreeMarshal (h : Host) (tm : TreeMarshal) : Host :=
  { h with pendingTreeMarshal :=
      (tm.EntityId, ((alookup tm.EntityId h.pendingTreeMarshal).getD []) ++ [tm])
        :: h.pendingTreeMarshal }

/-- One iteration of `checkPendingTreeMarshal`: a marshal that materializes
is stored via `AddTree` (which also rescans pending envelopes); a malformed
marshal is dropped with a logged error. -/
def Host.checkPendingTreeMarshalStep (protocols : List Nat)
    (mk : TreeMarshal → EntityList → Except String Tree) (il : EntityList)
    (acc : Host × List Dispatch) (tm : TreeMarshal) : Host × List Dispatch :=
  match mk tm il with
  | .error _ => acc
  | .ok tree =>
    let r := Host.AddTree protocols acc.1 tree
    (r.1, acc.2 ++ r.2)

/-- `checkPendingTreeMarshal` materializes every pending tree marshal keyed
by the newly arrived entity list.  Mirroring the Go code, the table entry
is not cleared. -/
def Host.checkPendingTreeMarshal (protocols : List Nat)
    (mk : TreeMarshal → EntityList → Except String Tree) (h : Host)
    (il : EntityList) : Host × List Dispatch :=
  match alookup il.Id h.pendingTreeMarshal with
  | none => (h, [])
  | some sl => sl.foldl (Host.checkPendingTreeMarshalStep protocols mk il) (h, [])

/-- The `SendTree` branch of the dispatch loop: an empty marshal is dropped;
if the referenced entity list is unknown, the marshal is queued and an
entity-list request goes to the sender; otherwise the tree is materialized
(`mk` stands for `TreeMarshal.MakeTree`, whose sources are absent), stored
via `AddTree`, and the pending envelopes are rechecked (the Go code runs
`checkPendingSDA` a second time after `AddTree`, which already ran it). -/
def Host.processSendTree (protocols : List Nat)
    (mk : TreeMarshal → EntityList → Except String Tree) (h : Host)
    (sender : Entity) (tm : TreeMarshal) : StepResult :=
  if tm.NodeId = 0 then ⟨h, [], [], some "Received an empty Tree"⟩
  else match alookup tm.EntityId h.entityLists with
    | none =>
      ⟨h.addPendingTreeMarshal tm,
       [OutMsg.requestEntityList sender tm.EntityId], [], none⟩
    | some il =>
      match mk tm il with
      | .error e => ⟨h, [], [], some ("Couldn't create tree: " ++ e)⟩
      | .ok tree =>
        let r1 := Host.AddTree protocols h tree
        let r2 := Host.checkPendingSDA protocols r1.1 tree
        ⟨r2.1, [], r1.2 ++ r2.2, none⟩

/-- The `SendEntityList` branch of the dispatch loop: an empty entity list
is dropped; otherwise it is stored and the pending tree marshals keyed by
it are materialized. -/
def Host.processSendEntityList (protocols : List Nat)
    (mk : TreeMarshal → EntityList → Except String Tree) (h : Host)
    (il : EntityList) : Host × List Dispatch :=
  if il.Id = 0 then (h, [])
  else Host.checkPendingTreeMarshal protocols mk (h.AddEntityList il) il

/-! ## Message aggregation (§4.4)

Modelled from the spec: the typed-channel dispatch layer (`node.go`) is not
among the sources; only its tests are.  Per the spec, for an
aggregate-registered payload type the runtime buffers the arriving
`{senderTreeNode, payload}` records until one has been received from every
direct child, and only then makes a single delivery of the buffered
sequence in arrival order. -/

/-- One buffered record: the sender's tree-node identifier and the payload. -/
abbrev AggRec := Nat × Nat

/-- The aggregation buffer of one (instance, payload type) pair together
with the deliveries made so far. -/
structure AggState where
  buffer : List AggRec
  delivered : List (List AggRec)
deriving DecidableEq, Repr

/-- The completion condition: a record has been received from every direct
child of the instance. -/
def aggComplete (children : List Nat) (buf : List AggRec) : Bool :=
  children.all (fun c => decide (c ∈ buf.map Prod.fst))

/-- Processing one arriving record: it is appended to the buffer; if the
buffer now holds a record from every direct child, the whole buffer is
delivered at once and the buffer restarts empty. -/
def aggStep (children : List Nat) (s : AggState) (r : AggRec) : AggState :=
  let buf := s.buffer ++ [r]
  if aggComplete children buf then ⟨[], s.delivered ++ [buf]⟩
  else ⟨buf, s.delivered⟩

/-- Processing a whole arrival sequence, starting from the empty buffer. -/
def aggRun (children : List Nat) (msgs : List AggRec) : AggState :=
  msgs.foldl (aggStep children) ⟨[], []⟩

/-! ## Local in-process transport (`network/local.go`) -/

/-- The defined error kinds of the local transport.  `errClosed` models the
package-level `ErrClosed` sentinel; the other kinds model the distinct
error values produced at the cited sites. -/
inductive LocalErr where
  | notListening (localAddr remoteAddr : String)
  | wrongAddressType
  | alreadyListening (addr : String)
  | errClosed
deriving DecidableEq, Repr

/-- The connection type of an address. -/
inductive ConnType where
  | Local
  | TCP
deriving DecidableEq, Repr

/-- An opaque network address together with its connection type. -/
structure Address where
  ct : ConnType
  raw : String
deriving DecidableEq, Repr

/-- A frame of the local transport. -/
structure Packet where
  MsgType : Nat
  Msg : Nat
deriving DecidableEq, Repr

/-- One endpoint of a local connection: its address and the unique
identifier the manager assigned to it. -/
structure Endpoint where
  addr : Address
  uid : Nat
deriving DecidableEq, Repr

/-- The bounded FIFO queue of one direction of a local connection. -/
structure connQueue where
  queue : List Packet
  isClosed : Bool
deriving DecidableEq, Repr

def newConnQueue : connQueue := ⟨[], false⟩

/-- `push` inserts a packet at the back of the queue; on a closed queue it
returns without touching the queue. -/
def cqPush (p : Packet) (c : connQueue) : connQueue :=
  if c.isClosed then c else { c with queue := c.queue ++ [p] }

/-- `pop` retrieves the front packet.  `none` models the blocking wait that
happens while the queue is empty and not closed; once the queue is closed,
`pop` returns `ErrClosed` even when packets are still queued (the second
`isClosed` test of the Go code, performed after the wait loop). -/
def cqPop (c : connQueue) : Option (Except LocalErr (Packet × connQueue)) :=
  match c.queue with
  | [] => if c.isClosed then some (.error .errClosed) else none
  | p :: rest =>
    if c.isClosed then some (.error .errClosed)
    else some (.ok (p, { c with queue := rest }))

/-- `close` marks the queue unusable and wakes all waiters. -/
def cqClose (c : connQueue) : connQueue :=
  { c with isClosed := true }

/-- The process-wide directory of the local transport: the per-endpoint
receive queues, the set of listening addresses, and the monotonically
increasing endpoint-identifier counter. -/
structure LocalManager where
  queues : List (Endpoint × connQueue)
  listening : List Address
  baseUID : Nat
deriving DecidableEq, Repr

/-- One local connection: its own endpoint and the remote endpoint. -/
structure LocalConn where
  localE : Endpoint
  remoteE : Endpoint
deriving DecidableEq, Repr

def removeKey (k : Endpoint) (l : List (Endpoint × connQueue)) :
    List (Endpoint × connQueue) :=
  l.filter (fun p => decide (p.1 ≠ k))

def updateKey (k : Endpoint) (q : connQueue)
    (l : List (Endpoint × connQueue)) : List (Endpoint × connQueue) :=
  l.map (fun p => if p.1 = k then (p.1, q) else p)

/-- `connect` refuses when the remote address is not listening; otherwise it
mints two fresh endpoints, registers the two receive queues, and returns
the outgoing connection. -/
def LocalManager.connect (lm : LocalManager) (localA remoteA : Address) :
    Except LocalErr (LocalConn × LocalManager) :=
  if remoteA ∈ lm.listening then
    let outE : Endpoint := ⟨localA, lm.baseUID⟩
    let incE : Endpoint := ⟨remoteA, lm.baseUID + 1⟩
    .ok (⟨outE, incE⟩,
      { lm with
          baseUID := lm.baseUID + 2,
          queues := (incE, newConnQueue) :: (outE, newConnQueue) :: lm.queues })
  else .error (.notListening localA.raw remoteA.raw)

/-- `send` pushes the packet onto the queue registered for the endpoint and
returns `ErrClosed` when no such queue exists (it was removed by `close`). -/
def LocalManager.send (lm : LocalManager) (e : Endpoint) (nm : Packet) :
    Except LocalErr LocalManager :=
  match alookup e lm.queues with
  | none => .error .errClosed
  | some q => .ok { lm with queues := updateKey e (cqPush nm q) lm.queues }

/-- `LocalConn.Close` closes its own queue and asks the manager to close the
connection, which removes both endpoints' queues from the directory (the
removed remote queue is also marked closed, which the directory no longer
observes). -/
def LocalConn.Close (lc : LocalConn) (lm : LocalManager) : LocalManager :=
  { lm with queues := removeKey lc.remoteE (removeKey lc.localE lm.queues) }

/-- The external type registry used by `LocalConn.Send`, modelled as an
identity tagging of the abstract payload. -/
def typeFromData (m : Nat) : Nat := m

/-- `LocalConn.Send` wraps the payload in a packet and stores it into the
remote endpoint's receive queue through the manager. -/
def LocalConn.Send (lc : LocalConn) (lm : LocalManager) (msg : Nat) :
    Except LocalErr LocalManager :=
  lm.send lc.remoteE ⟨typeFromData msg, msg⟩

/-- `LocalListener.bind` refuses non-local addresses and addresses that are
already listening. -/
def LocalListener.bind (lm : LocalManager) (addr : Address) :
    Except LocalErr Address :=
  if addr.ct ≠ ConnType.Local then .error .wrongAddressType
  else if addr ∈ lm.listening then .error (.alreadyListening addr.raw)
  else .ok addr

/-! ## Concrete instances used by the closed theorems and witnesses -/

/-- A trivial serializer: every payload marshals to the singleton byte list
holding itself and is tagged with itself. -/
def net0 : Network := ⟨fun n => .ok [n], fun n => n⟩

def exEntity : Entity := ⟨5⟩

def exNode : TreeNode := ⟨10, exEntity⟩

def exNode2 : TreeNode := ⟨11, exEntity⟩

def exTree : Tree := ⟨100, 200, [exNode]⟩

def exEL : EntityList := ⟨200, [exEntity]⟩

/-- A token addressing the slot `exNode` of `exTree` for protocol 1. -/
def exTok : Token := ⟨1, 200, 100, 0, 10⟩

def exTok2 : Token := ⟨1, 200, 100, 0, 11⟩

def exFrom : Token := ⟨1, 200, 100, 0, 11⟩

/-- An envelope addressed to `exTok`. -/
def exSda : SDAData := ⟨some 7, [7], 3, exFrom, exTok⟩

/-- A host that received `exSda` before knowing the tree `exTree`: the
envelope sits in the pending queue. -/
def exHost : Host := ⟨[], [(200, exEL)], [], [], [exSda], []⟩

/-- The tree arrives (first `AddTree`). -/
def exAdd1 : Host × List Dispatch := Host.AddTree [1] exHost exTree

/-- The same tree arrives a second time (second `AddTree`). -/
def exAdd2 : Host × List Dispatch := Host.AddTree [1] exAdd1.1 exTree

/-- An envelope whose recipient token names the unregistered protocol 9. -/
def c7Sda : SDAData := ⟨some 7, [7], 3, exFrom, ⟨9, 200, 100, 0, 10⟩⟩

def c7Host : Host := ⟨[], [], [], [], [], []⟩

def c7Res : StepResult := Host.processSDAMessage [1] c7Host exEntity c7Sda

/-- An envelope whose recipient token addresses tree node 99, which is
absent from `exTree`. -/
def c7NodeSda : SDAData := ⟨some 7, [7], 3, exFrom, ⟨1, 200, 100, 0, 99⟩⟩

/-- A host that knows entity list 200 and tree 100 but has no instance
registered yet. -/
def c7NodeHost : Host := ⟨[], [(200, exEL)], [(100, exTree)], [], [], []⟩

def c7NodeRes : StepResult :=
  Host.processSDAMessage [1] c7NodeHost exEntity c7NodeSda

/-- A tree marshal referencing entity list 200. -/
def exTm : TreeMarshal := ⟨10, 200, 0⟩

/-- A materializer that always produces `exTree`. -/
def mk0 : TreeMarshal → EntityList → Except String Tree := fun _ _ => .ok exTree

/-- A host holding `exTm` pending under entity-list id 200. -/
def exHostPendingTm : Host := ⟨[], [], [], [(200, [exTm])], [], []⟩

def exAddrA : Address := ⟨ConnType.Local, "127.0.0.1:2000"⟩

def exAddrB : Address := ⟨ConnType.Local, "127.0.0.1:2001"⟩

/-- A local manager on which only `exAddrB` is listening. -/
def exLM : LocalManager := ⟨[], [exAddrB], 0⟩

/-! ## Helper lemmas -/

theorem foldl_preserve {σ τ : Type} (f : σ → τ → σ) (P : σ → Prop)
    (hf : ∀ s x, P s → P (f s x)) :
    ∀ (l : List τ) (s : σ), P s → P (l.foldl f s) := by
  intro l
  induction l with
  | nil => intro s hs; exact hs
  | cons a t ih => intro s hs; exact ih (f s a) (hf s a hs)

theorem alookup_removeKey (k : Endpoint) (l : List (Endpoint × connQueue)) :
    alookup k (removeKey k l) = none := by
  induction l with
  | nil => rfl
  | cons a t ih =>
    obtain ⟨a1, a2⟩ := a
    by_cases h : a1 = k
    · have h2 : removeKey k ((a1, a2) :: t) = removeKey k t := by
        simp [removeKey, List.filter_cons, h]
      rw [h2]; exact ih
    · have h2 : removeKey k ((a1, a2) :: t) = (a1, a2) :: removeKey k t := by
        simp [removeKey, List.filter_cons, h]
      rw [h2]
      simp only [alookup]
      rw [if_neg (fun hk => h hk.symm)]
      exact ih

/-! ## Claim theorems -/

/-- **C5.** Token symmetry: for all tokens `t1`, `t2` that agree on
ProtocolID, RosterID, TreeID and RoundID, with `tn1` and `tn2` the tree
nodes the two tokens address, `t1.other(t2.treeNode).other(t1.treeNode)`
is `t1` again. -/
theorem token_other_symm (t1 t2 : Token) (tn1 tn2 : TreeNode)
    (hp : t1.ProtocolID = t2.ProtocolID) (he : t1.EntityListID = t2.EntityListID)
    (ht : t1.TreeID = t2.TreeID) (hr : t1.RoundID = t2.RoundID)
    (h1 : tn1.Id = t1.TreeNodeID) (h2 : tn2.Id = t2.TreeNodeID) :
    (t1.OtherToken tn2).OtherToken tn1 = t1 := by
  cases t1
  simp only [Token.OtherToken] at h1 ⊢
  simp [h1]

/-- Witness for `token_other_symm` at concrete tokens of one round. -/
theorem token_other_symm_witness :
    (exTok.OtherToken exNode2).OtherToken exNode = exTok :=
  token_other_symm exTok exTok2 exNode exNode2 rfl rfl rfl rfl rfl rfl

/-- **C10.** Once a local `connQueue` has been closed, every subsequent pop
returns the closed error even if packets are still queued, and every push
on the closed queue leaves it unchanged; hence packets queued at close time
or pushed after close are discarded and never delivered. -/
theorem connQueue_closed_discards (c : connQueue) (p : Packet) :
    cqPop (cqClose c) = some (.error .errClosed) ∧
    cqPush p (cqClose c) = cqClose c := by
  obtain ⟨q, cl⟩ := c
  constructor
  · cases q <;> simp [cqPop, cqClose]
  · simp [cqPush, cqClose]

/-- **C9.** In the local in-process transport, connecting to an address
that is not listening, binding an address that is already listening, and
sending on a closed connection each fail with their defined error kind. -/
theorem local_transport_error_kinds (lm : LocalManager)
    (localA remoteA addr : Address) (lc : LocalConn) (msg : Nat)
    (hnl : remoteA ∉ lm.listening) (hct : addr.ct = ConnType.Local)
    (hl : addr ∈ lm.listening) :
    lm.connect localA remoteA = .error (.notListening localA.raw remoteA.raw) ∧
    LocalListener.bind lm addr = .error (.alreadyListening addr.raw) ∧
    LocalConn.Send lc (lc.Close lm) msg = .error .errClosed := by
  refine ⟨?_, ?_, ?_⟩
  · unfold LocalManager.connect
    rw [if_neg hnl]
  · unfold LocalListener.bind
    rw [if_neg (by simp [hct]), if_pos hl]
  · simp [LocalConn.Send, LocalConn.Close, LocalManager.send, alookup_removeKey]

/-- Witness for `local_transport_error_kinds`: on a manager where only one
address listens, the three failures are observed concretely. -/
theorem local_transport_error_kinds_witness :
    exLM.connect exAddrB exAddrA =
      .error (.notListening exAddrB.raw exAddrA.raw) ∧
    LocalListener.bind exLM exAddrB = .error (.alreadyListening exAddrB.raw) ∧
    LocalConn.Send ⟨⟨exAddrA, 0⟩, ⟨exAddrB, 1⟩⟩
      (LocalConn.Close ⟨⟨exAddrA, 0⟩, ⟨exAddrB, 1⟩⟩ exLM) 7 =
      .error .errClosed :=
  local_transport_error_kinds exLM exAddrB exAddrA exAddrB
    ⟨⟨exAddrA, 0⟩, ⟨exAddrB, 1⟩⟩ 7 (by decide) rfl (by decide)

/-- **C3.** A `sendSDA` (`SendSDA` / `SendSDAToTreeNode`) whose sender token
is nil or is not registered as an active protocol instance fails locally
with an addressing error; nothing is handed to the transport (a
`.error` result emits no frame in this model). -/
theorem sendSDA_unregistered_sender (net : Network) (h : Host)
    (fr : Option Token) (toN : Option TreeNode) (toTok : Token) (msg : Nat)
    (hfr : fr = none ∨ h.mapperInstance fr = none) :
    h.SendSDAToTreeNode net fr toN msg =
      .error "No protocol instance registered with this token." ∧
    ∃ s, h.SendSDA net fr toTok msg = .error s := by
  have hnone : h.mapperInstance fr = none := by
    rcases hfr with hfr | hfr
    · rw [hfr]; rfl
    · exact hfr
  have h1 : ∀ tn, h.SendSDAToTreeNode net fr tn msg =
      .error "No protocol instance registered with this token." := by
    intro tn
    unfold Host.SendSDAToTreeNode
    rw [if_pos hnone]
  refine ⟨h1 toN, ?_⟩
  unfold Host.SendSDA
  cases htn : h.TreeNodeFromToken toTok with
  | error e => exact ⟨e, rfl⟩
  | ok tn => exact ⟨_, h1 (some tn)⟩

/-- Witness for `sendSDA_unregistered_sender`: a host with an empty
instance registry refuses to send for any token. -/
theorem sendSDA_unregistered_sender_witness :
    c7Host.SendSDAToTreeNode net0 (some exTok) (some exNode) 7 =
      .error "No protocol instance registered with this token." ∧
    ∃ s, c7Host.SendSDA net0 (some exTok) exTok 7 = .error s :=
  sendSDA_unregistered_sender net0 c7Host (some exTok) (some exNode) exTok 7
    (Or.inr rfl)

/-- **C4.** Every successful `SendSDAToTreeNode net h from to msg` emits
exactly one frame, addressed to the recipient tree node's entity, whose
envelope has `To = from.OtherToken to` (so `From.other(recipient) = To`),
whose payload travels serialized in `MsgSlice` while the decoded `Msg`
field is blanked. -/
theorem sendSDAToTreeNode_wire_envelope (net : Network) (h : Host)
    (fr : Token) (tn : TreeNode) (msg : Nat) (out : OutMsg)
    (hok : h.SendSDAToTreeNode net (some fr) (some tn) msg = .ok out) :
    ∃ b, net.marshal msg = .ok b ∧
      out = OutMsg.sdaData tn.Entity
        { Msg := none, MsgSlice := b, MsgType := net.typeOf msg,
          From := fr, To := fr.OtherToken tn } ∧
      (fr.OtherToken tn).TreeNodeID = tn.Id ∧
      (fr.OtherToken tn).ProtocolID = fr.ProtocolID ∧
      (fr.OtherToken tn).EntityListID = fr.EntityListID ∧
      (fr.OtherToken tn).TreeID = fr.TreeID ∧
      (fr.OtherToken tn).RoundID = fr.RoundID := by
  unfold Host.SendSDAToTreeNode at hok
  by_cases hmi : h.mapperInstance (some fr) = none
  · rw [if_pos hmi] at hok
    simp at hok
  · rw [if_neg hmi] at hok
    simp only [Host.sendSDAData, Host.SendRaw] at hok
    cases hmar : net.marshal msg with
    | error e =>
      rw [hmar] at hok
      simp at hok
    | ok b =>
      rw [hmar] at hok
      refine ⟨b, rfl, ?_, rfl, rfl, rfl, rfl, rfl⟩
      cases hok
      rfl

/-- Witness for `sendSDAToTreeNode_wire_envelope`: a concrete successful
send whose emitted envelope is evaluated. -/
theorem sendSDAToTreeNode_wire_envelope_witness :
    ∃ b, net0.marshal 7 = .ok b ∧
      OutMsg.sdaData exNode.Entity
          { Msg := none, MsgSlice := [7], MsgType := 7,
            From := exTok2, To := exTok2.OtherToken exNode } =
        OutMsg.sdaData exNode.Entity
          { Msg := none, MsgSlice := b, MsgType := net0.typeOf 7,
            From := exTok2, To := exTok2.OtherToken exNode } ∧
      (exTok2.OtherToken exNode).TreeNodeID = exNode.Id ∧
      (exTok2.OtherToken exNode).ProtocolID = exTok2.ProtocolID ∧
      (exTok2.OtherToken exNode).EntityListID = exTok2.EntityListID ∧
      (exTok2.OtherToken exNode).TreeID = exTok2.TreeID ∧
      (exTok2.OtherToken exNode).RoundID = exTok2.RoundID :=
  sendSDAToTreeNode_wire_envelope net0
    { c7Host with instances := [exTok2] } exTok2 exNode 7
    (OutMsg.sdaData exNode.Entity
      { Msg := none, MsgSlice := [7], MsgType := 7,
        From := exTok2, To := exTok2.OtherToken exNode }) rfl

/-- **C1 (failing-input evaluation).** A host holds a single pending
envelope for a not-yet-known tree.  When the tree is added the envelope is
dispatched, but it is *not* removed from the pending queue, and adding the
same tree a second time dispatches the very same envelope again: the code
delivers twice and never shrinks the pending list, contradicting the
exactly-once/removal behaviour the claim states. -/
theorem pendingSDA_redelivered_on_second_addTree :
    exAdd1.2 = [⟨exTok, exSda⟩] ∧ exAdd1.1.pendingSDAs = [exSda] ∧
    exAdd2.2 = [⟨exTok, exSda⟩] ∧ exAdd2.1.pendingSDAs = [exSda] := by
  decide

/-- **C7 counterexample.** Neither an envelope whose recipient token names
an unregistered protocol, nor one that addresses a tree node absent from
its (known) tree, is handled by the pending queue plus discovery fetch: in
both cases the host state is unchanged (nothing is queued), nothing is
emitted, and the message is dropped with a local error. -/
theorem unknown_protocol_rejected_not_queued :
    (c7Res.host = c7Host ∧ c7Res.out = [] ∧ c7Res.events = [] ∧
     c7Res.err = some "Protocol does not exists from token" ∧
     c7Sda ∉ c7Res.host.pendingSDAs) ∧
    (c7NodeRes.host = c7NodeHost ∧ c7NodeRes.out = [] ∧
     c7NodeRes.events = [] ∧
     c7NodeRes.err = some "We are not represented in the tree" ∧
     c7NodeSda ∉ c7NodeRes.host.pendingSDAs) := by
  refine ⟨⟨rfl, rfl, rfl, rfl, ?_⟩, ⟨rfl, rfl, rfl, rfl, ?_⟩⟩ <;> decide

/-! ### Aggregation lemmas -/

theorem aggRun_append_one (children : List Nat) (ms : List AggRec) (m : AggRec) :
    aggRun children (ms ++ [m]) = aggStep children (aggRun children ms) m := by
  unfold aggRun
  rw [List.foldl_append]
  rfl

theorem aggComplete_iff (children : List Nat) (buf : List AggRec) :
    aggComplete children buf = true ↔ ∀ c ∈ children, c ∈ buf.map Prod.fst := by
  unfold aggComplete
  simp [List.all_eq_true]

/-- A run in which no non-empty arrival segment satisfies the completion
condition only buffers: no delivery is made and the buffer keeps all
records in arrival order. -/
theorem aggRun_no_delivery (children : List Nat) :
    ∀ (msgs : List AggRec),
      (∀ j, 0 < j → j ≤ msgs.length →
        aggComplete children (msgs.take j) = false) →
      aggRun children msgs = ⟨msgs, []⟩ := by
  intro msgs
  induction msgs using List.reverseRecOn with
  | nil => intro _; rfl
  | append_singleton ms m ih =>
    intro hnc
    rw [aggRun_append_one]
    have hms : aggRun children ms = ⟨ms, []⟩ := by
      apply ih
      intro j hj hjle
      have h1 := hnc j hj (by simp; omega)
      have h2 : (ms ++ [m]).take j = ms.take j := by
        rw [List.take_append_eq_append_take, Nat.sub_eq_zero_of_le hjle,
          List.take_zero, List.append_nil]
      rwa [h2] at h1
    rw [hms]
    have hfull := hnc (ms.length + 1) (Nat.succ_pos _) (by simp)
    have htake : (ms ++ [m]).take (ms.length + 1) = ms ++ [m] := by
      have hlen : ms.length + 1 = (ms ++ [m]).length := by simp
      rw [hlen, List.take_length]
    rw [htake] at hfull
    simp [aggStep, hfull]

/-- While strictly fewer records than there are direct children have
arrived from pairwise distinct children, the completion condition fails. -/
theorem agg_take_incomplete (children : List Nat) (msgs : List AggRec)
    (hperm : (msgs.map Prod.fst).Perm children) (hnd : children.Nodup)
    (j : Nat) (hj : j < msgs.length) :
    aggComplete children (msgs.take j) = false := by
  cases hc : aggComplete children (msgs.take j) with
  | false => rfl
  | true =>
    exfalso
    rw [aggComplete_iff] at hc
    have hsub : children ⊆ (msgs.take j).map Prod.fst := by
      intro c hcmem
      exact hc c hcmem
    have hsp := (List.Nodup.subperm hnd hsub).length_le
    have h1 : ((msgs.take j).map Prod.fst).length = min j msgs.length := by
      simp
    have h2 : children.length = msgs.length := by
      simpa using hperm.length_eq.symm
    rw [h1, h2] at hsp
    omega

/-- **C2.** For an instance whose direct children are `children` and whose
aggregate-registered type receives the arrival sequence `msgs` with exactly
one record per direct child: no delivery is made before the last child's
record arrives (every proper prefix only buffers), and the arrival of the
final record produces exactly one delivery holding all records in arrival
order. -/
theorem msg_aggregation_exactly_once (children : List Nat) (msgs : List AggRec)
    (hperm : (msgs.map Prod.fst).Perm children) (hnd : children.Nodup)
    (hne : children ≠ []) :
    (∀ k, k < msgs.length →
      aggRun children (msgs.take k) = ⟨msgs.take k, []⟩) ∧
    aggRun children msgs = ⟨[], [msgs]⟩ := by
  have hpre : ∀ k, k < msgs.length →
      aggRun children (msgs.take k) = ⟨msgs.take k, []⟩ := by
    intro k hk
    apply aggRun_no_delivery
    intro j hj hjle
    have hjk : j ≤ k := by
      simp [List.length_take] at hjle
      omega
    have hjlt : j < msgs.length := lt_of_le_of_lt hjk hk
    have htt : (msgs.take k).take j = msgs.take j := by
      rw [List.take_take, Nat.min_eq_left hjk]
    rw [htt]
    exact agg_take_incomplete children msgs hperm hnd j hjlt
  refine ⟨hpre, ?_⟩
  have hmsgs_ne : msgs ≠ [] := by
    intro h0
    apply hne
    rw [h0] at hperm
    exact hperm.symm.eq_nil
  rcases List.eq_nil_or_concat msgs with h0 | ⟨ms, m, rfl⟩
  · exact absurd h0 hmsgs_ne
  · simp only [List.concat_eq_append] at hperm hpre hmsgs_ne ⊢
    rw [aggRun_append_one]
    have hms : aggRun children ms = ⟨ms, []⟩ := by
      have h1 := hpre ms.length (by simp)
      rwa [List.take_left] at h1
    rw [hms]
    have hcomp : aggComplete children (ms ++ [m]) = true := by
      rw [aggComplete_iff]
      intro c hc
      exact hperm.mem_iff.mpr hc
    simp [aggStep, hcomp]

/-- Witness for `msg_aggregation_exactly_once`: two children send `3` and
`4`; nothing is delivered after the first record, one delivery of
`[(1, 3), (2, 4)]` happens on the second. -/
theorem msg_aggregation_exactly_once_witness :
    (∀ k, k < [((1 : Nat), (3 : Nat)), (2, 4)].length →
      aggRun [1, 2] ([((1 : Nat), (3 : Nat)), (2, 4)].take k) =
        ⟨[((1 : Nat), (3 : Nat)), (2, 4)].take k, []⟩) ∧
    aggRun [1, 2] [((1 : Nat), (3 : Nat)), (2, 4)] =
      ⟨[], [[((1 : Nat), (3 : Nat)), (2, 4)]]⟩ :=
  msg_aggregation_exactly_once [1, 2] [(1, 3), (2, 4)]
    (by decide) (by decide) (by decide)

/-! ### Dispatcher lemmas -/

theorem protocolInstantiate_ok (ps : List Nat) (h h' : Host) (tok : Token)
    (tn : Option TreeNode) (hok : protocolInstantiate ps h tok tn = .ok h') :
    h' = { h with instances := tok :: h.instances } := by
  unfold protocolInstantiate at hok
  split at hok
  · cases hok
  · split at hok
    · cases hok
    · split at hok
      · cases hok
      · split at hok
        · cases hok
        · split at hok
          · cases hok
          · simp at hok
            exact hok.symm

theorem checkPendingSDAStep_fields (ps : List Nat) (t : Tree)
    (acc : Host × List Dispatch) (sda : SDAData) :
    (Host.checkPendingSDAStep ps t acc sda).1.trees = acc.1.trees ∧
    (Host.checkPendingSDAStep ps t acc sda).1.entityLists = acc.1.entityLists ∧
    (Host.checkPendingSDAStep ps t acc sda).1.pendingSDAs = acc.1.pendingSDAs ∧
    ∀ x ∈ acc.2, x ∈ (Host.checkPendingSDAStep ps t acc sda).2 := by
  unfold Host.checkPendingSDAStep
  split
  · split
    · exact ⟨rfl, rfl, rfl, fun x hx => hx⟩
    · split
      · exact ⟨rfl, rfl, rfl, fun x hx => hx⟩
      · rename_i h' heq
        have hmk := protocolInstantiate_ok ps acc.1 h' sda.To _ heq
        subst hmk
        exact ⟨rfl, rfl, rfl, fun x hx => List.mem_append_left _ hx⟩
  · exact ⟨rfl, rfl, rfl, fun x hx => hx⟩

theorem checkPendingSDA_host_fields (ps : List Nat) (h : Host) (t : Tree) :
    (Host.checkPendingSDA ps h t).1.trees = h.trees ∧
    (Host.checkPendingSDA ps h t).1.entityLists = h.entityLists ∧
    (Host.checkPendingSDA ps h t).1.pendingSDAs = h.pendingSDAs := by
  unfold Host.checkPendingSDA
  exact foldl_preserve (Host.checkPendingSDAStep ps t)
    (fun acc => acc.1.trees = h.trees ∧ acc.1.entityLists = h.entityLists ∧
      acc.1.pendingSDAs = h.pendingSDAs)
    (fun s x hs => by
      obtain ⟨h1, h2, h3, _⟩ := checkPendingSDAStep_fields ps t s x
      exact ⟨h1.trans hs.1, h2.trans hs.2.1, h3.trans hs.2.2⟩)
    h.pendingSDAs (h, []) ⟨rfl, rfl, rfl⟩

theorem checkPendingSDA_events_mono (ps : List Nat) (t : Tree) (x : Dispatch) :
    ∀ (l : List SDAData) (acc : Host × List Dispatch), x ∈ acc.2 →
      x ∈ (l.foldl (Host.checkPendingSDAStep ps t) acc).2 := by
  intro l
  induction l with
  | nil => intro acc hx; exact hx
  | cons a tl ih =>
    intro acc hx
    exact ih _ ((checkPendingSDAStep_fields ps t acc a).2.2.2 x hx)

/-- Every pending envelope that refers to the scanned tree, whose node is
resolvable and whose instance is instantiable, is dispatched by the
`checkPendingSDA` fold. -/
theorem checkPendingSDA_fold_dispatches (ps : List Nat) (t : Tree)
    (sda : SDAData) (n : TreeNode) (tr : Tree)
    (hid : sda.To.TreeID = t.Id) (hp : sda.To.ProtocolID ∈ ps)
    (hn : t.GetNode sda.To.TreeNodeID = some n)
    (hin : n.IsInTree tr = true) :
    ∀ (l : List SDAData) (acc : Host × List Dispatch), sda ∈ l →
      alookup sda.To.TreeID acc.1.trees = some tr →
      (alookup sda.To.EntityListID acc.1.entityLists).isSome = true →
      Dispatch.mk sda.To sda ∈
        (l.foldl (Host.checkPendingSDAStep ps t) acc).2 := by
  intro l
  induction l with
  | nil => intro acc hmem; cases hmem
  | cons a tl ih =>
    intro acc hmem htr hel
    rcases List.mem_cons.mp hmem with heq | hmem'
    · subst heq
      have hpi : protocolInstantiate ps acc.1 sda.To (some n) =
          .ok { acc.1 with instances := sda.To :: acc.1.instances } := by
        unfold protocolInstantiate
        obtain ⟨elv, helv⟩ := Option.isSome_iff_exists.mp hel
        rw [htr, helv]
        simp [hp, hin]
      have hstep : Host.checkPendingSDAStep ps t acc sda =
          ({ acc.1 with instances := sda.To :: acc.1.instances },
           acc.2 ++ [⟨sda.To, sda⟩]) := by
        unfold Host.checkPendingSDAStep
        rw [if_pos hid, hn]
        dsimp only
        rw [hpi]
      rw [List.foldl_cons, hstep]
      apply checkPendingSDA_events_mono
      simp
    · refine ih _ hmem' ?_ ?_
      · rw [(checkPendingSDAStep_fields ps t acc a).1]
        exact htr
      · rw [(checkPendingSDAStep_fields ps t acc a).2.1]
        exact hel

theorem addTree_trees (ps : List Nat) (h : Host) (t : Tree) :
    (Host.AddTree ps h t).1.trees = (t.Id, t) :: h.trees := by
  unfold Host.AddTree
  rw [(checkPendingSDA_host_fields ps _ t).1]

/-- `AddTree` dispatches every pending envelope that refers to the added
tree, is addressed to a node of it, and whose instance is instantiable. -/
theorem addTree_dispatches (ps : List Nat) (h : Host) (t : Tree)
    (sda : SDAData) (n : TreeNode)
    (hmem : sda ∈ h.pendingSDAs) (hid : sda.To.TreeID = t.Id)
    (hp : sda.To.ProtocolID ∈ ps)
    (hn : t.GetNode sda.To.TreeNodeID = some n) (hin : n.IsInTree t = true)
    (hel : (alookup sda.To.EntityListID h.entityLists).isSome = true) :
    Dispatch.mk sda.To sda ∈ (Host.AddTree ps h t).2 := by
  unfold Host.AddTree Host.checkPendingSDA
  refine checkPendingSDA_fold_dispatches ps t sda n t hid hp hn hin _ _ hmem ?_ ?_
  · simp only [alookup]
    rw [if_pos hid]
  · exact hel

theorem checkPendingTreeMarshalStep_tree_mono (ps : List Nat)
    (mk : TreeMarshal → EntityList → Except String Tree) (il : EntityList)
    (acc : Host × List Dispatch) (tm : TreeMarshal) (x : Nat × Tree)
    (hx : x ∈ acc.1.trees) :
    x ∈ (Host.checkPendingTreeMarshalStep ps mk il acc tm).1.trees := by
  unfold Host.checkPendingTreeMarshalStep
  split
  · exact hx
  · show x ∈ (Host.AddTree ps acc.1 _).1.trees
    rw [addTree_trees]
    exact List.mem_cons_of_mem _ hx

/-- A pending tree marshal that materializes ends up stored by the
`checkPendingTreeMarshal` fold. -/
theorem fold_marshal_tree_mem (ps : List Nat)
    (mk : TreeMarshal → EntityList → Except String Tree) (il : EntityList)
    (tm' : TreeMarshal) (tree' : Tree) (hmk : mk tm' il = .ok tree') :
    ∀ (sl : List TreeMarshal) (acc : Host × List Dispatch), tm' ∈ sl →
      (tree'.Id, tree') ∈
        (sl.foldl (Host.checkPendingTreeMarshalStep ps mk il) acc).1.trees := by
  intro sl
  induction sl with
  | nil => intro acc hmem; cases hmem
  | cons a tl ih =>
    intro acc hmem
    rcases List.mem_cons.mp hmem with heq | hmem'
    · subst heq
      rw [List.foldl_cons]
      have hstep : (tree'.Id, tree') ∈
          (Host.checkPendingTreeMarshalStep ps mk il acc tm').1.trees := by
        unfold Host.checkPendingTreeMarshalStep
        rw [hmk]
        show (tree'.Id, tree') ∈ (Host.AddTree ps acc.1 tree').1.trees
        rw [addTree_trees]
        exact List.mem_cons_self _ _
      exact foldl_preserve _ (fun s => (tree'.Id, tree') ∈ s.1.trees)
        (fun s y hy => checkPendingTreeMarshalStep_tree_mono ps mk il s y _ hy)
        tl _ hstep
    · exact ih _ hmem'

/-- **C7 (amended).** A received envelope whose recipient token refers to an
unknown entity list or tree is queued on the pending list and answered by a
`RequestTree` fetch to the sender; a token with an unknown ProtocolID — or,
with entity list and tree known and no instance registered yet, a
TreeNodeID absent from the tree — is instead dropped with a local error,
nothing queued and nothing fetched.  In every case the only frame the
dispatcher may emit is a `RequestTree` to the sender: no error reply is
ever sent to a remote peer. -/
theorem processSDAMessage_topology_missing (ps : List Nat) (h : Host)
    (sender : Entity) (sda : SDAData) :
    (sda.To.ProtocolID ∉ ps →
      Host.processSDAMessage ps h sender sda =
        ⟨h, [], [], some "Protocol does not exists from token"⟩) ∧
    (sda.To.ProtocolID ∈ ps →
      (alookup sda.To.EntityListID h.entityLists = none ∨
        alookup sda.To.TreeID h.trees = none) →
      Host.processSDAMessage ps h sender sda =
        ⟨h.addPendingSda sda, [OutMsg.requestTree sender sda.To.TreeID],
         [], none⟩) ∧
    (∀ tree, sda.To.ProtocolID ∈ ps →
      (alookup sda.To.EntityListID h.entityLists).isSome = true →
      alookup sda.To.TreeID h.trees = some tree →
      tree.GetNode sda.To.TreeNodeID = none →
      h.mapperExists sda.To = false →
      Host.processSDAMessage ps h sender sda =
        ⟨h, [], [], some "We are not represented in the tree"⟩) ∧
    (∀ m ∈ (Host.processSDAMessage ps h sender sda).out,
      m = OutMsg.requestTree sender sda.To.TreeID) := by
  refine ⟨?_, ?_, ?_, ?_⟩
  · intro hp
    unfold Host.processSDAMessage
    rw [if_pos hp]
  · intro hp hmiss
    unfold Host.processSDAMessage Host.requestTree
    rw [if_neg (not_not_intro hp)]
    by_cases hel2 : (alookup sda.To.EntityListID h.entityLists).isNone
    · rw [if_pos hel2]
    · rcases hmiss with hel | htr
      · exact absurd (by rw [hel]; rfl) hel2
      · rw [if_neg hel2, htr]
  · intro tree hp hel htr hnode hex
    obtain ⟨elv, helv⟩ := Option.isSome_iff_exists.mp hel
    have hpi : protocolInstantiate ps h sda.To none =
        .error "We are not represented in the tree" := by
      unfold protocolInstantiate
      rw [htr, helv]
      simp [hp]
    unfold Host.processSDAMessage
    rw [if_neg (not_not_intro hp), helv]
    rw [if_neg (show ¬ ((some elv).isNone = true) by simp)]
    rw [htr]
    dsimp only
    rw [if_neg (show ¬ (h.mapperExists sda.To = true) by simp [hex])]
    rw [hnode, hpi]
  · intro m hm
    unfold Host.processSDAMessage Host.requestTree at hm
    split at hm
    · simp at hm
    · split at hm
      · simp at hm
        exact hm
      · split at hm
        · simp at hm
          exact hm
        · split at hm
          · simp at hm
          · simp at hm

/-- Witness for `processSDAMessage_topology_missing`: an envelope for a
known protocol but an unknown tree is queued and a tree request goes to the
sender. -/
theorem processSDAMessage_topology_missing_witness :
    Host.processSDAMessage [1] exHost exEntity exSda =
      ⟨exHost.addPendingSda exSda,
       [OutMsg.requestTree exEntity exSda.To.TreeID], [], none⟩ :=
  (processSDAMessage_topology_missing [1] exHost exEntity exSda).2.1
    (by decide) (Or.inr rfl)

/-- **C6.** Handling `SendTree{tm}` with an unknown roster sends a
`RequestEntityList` to the sender and appends the marshal to the
pending-trees table keyed by the roster id; with a known roster the tree is
materialized, stored, and the pending envelopes are rechecked (every
matching pending envelope is dispatched).  When a roster later arrives via
`SendEntityList`, every pending tree marshal keyed by it that materializes
is stored. -/
theorem sendTree_roster_resolution (ps : List Nat)
    (mk : TreeMarshal → EntityList → Except String Tree) (h : Host)
    (sender : Entity) (tm : TreeMarshal) (il : EntityList)
    (htm : tm.NodeId ≠ 0) (hil : il.Id ≠ 0) :
    (alookup tm.EntityId h.entityLists = none →
      Host.processSendTree ps mk h sender tm =
        ⟨h.addPendingTreeMarshal tm,
         [OutMsg.requestEntityList sender tm.EntityId], [], none⟩ ∧
      alookup tm.EntityId (h.addPendingTreeMarshal tm).pendingTreeMarshal =
        some (((alookup tm.EntityId h.pendingTreeMarshal).getD []) ++ [tm])) ∧
    (∀ tree, alookup tm.EntityId h.entityLists = some il →
      mk tm il = .ok tree →
      (Host.processSendTree ps mk h sender tm).err = none ∧
      (tree.Id, tree) ∈ (Host.processSendTree ps mk h sender tm).host.trees ∧
      (∀ sda n, sda ∈ h.pendingSDAs → sda.To.TreeID = tree.Id →
        sda.To.ProtocolID ∈ ps →
        tree.GetNode sda.To.TreeNodeID = some n →
        n.IsInTree tree = true →
        (alookup sda.To.EntityListID h.entityLists).isSome = true →
        Dispatch.mk sda.To sda ∈
          (Host.processSendTree ps mk h sender tm).events)) ∧
    (∀ tm' tree', tm' ∈ (alookup il.Id h.pendingTreeMarshal).getD [] →
      mk tm' il = .ok tree' →
      (tree'.Id, tree') ∈
        (Host.processSendEntityList ps mk h il).1.trees) := by
  refine ⟨?_, ?_, ?_⟩
  · intro hel
    constructor
    · unfold Host.processSendTree
      rw [if_neg htm, hel]
    · unfold Host.addPendingTreeMarshal
      simp [alookup]
  · intro tree hel hmk
    have hres : Host.processSendTree ps mk h sender tm =
        ⟨(Host.checkPendingSDA ps (Host.AddTree ps h tree).1 tree).1, [],
         (Host.AddTree ps h tree).2 ++
           (Host.checkPendingSDA ps (Host.AddTree ps h tree).1 tree).2,
         none⟩ := by
      unfold Host.processSendTree
      rw [if_neg htm, hel]
      dsimp only
      rw [hmk]
    rw [hres]
    refine ⟨rfl, ?_, ?_⟩
    · show (tree.Id, tree) ∈
        (Host.checkPendingSDA ps (Host.AddTree ps h tree).1 tree).1.trees
      rw [(checkPendingSDA_host_fields ps _ tree).1, addTree_trees]
      exact List.mem_cons_self _ _
    · intro sda n hmem hid hp hn hin helv
      exact List.mem_append_left _
        (addTree_dispatches ps h tree sda n hmem hid hp hn hin helv)
  · intro tm' tree' hmem hmk
    unfold Host.processSendEntityList
    rw [if_neg hil]
    unfold Host.checkPendingTreeMarshal
    have hpe : (Host.AddEntityList h il).pendingTreeMarshal =
        h.pendingTreeMarshal := rfl
    rw [hpe]
    cases hsl : alookup il.Id h.pendingTreeMarshal with
    | none =>
      rw [hsl] at hmem
      simp at hmem
    | some sl =>
      rw [hsl] at hmem
      simp only [Option.getD_some] at hmem
      exact fold_marshal_tree_mem ps mk il tm' tree' hmk sl _ hmem

/-- Witness for `sendTree_roster_resolution`: with an unknown roster the
marshal is queued and requested; once the roster arrives the queued marshal
materializes into a stored tree. -/
theorem sendTree_roster_resolution_witness :
    Host.processSendTree [1] mk0 exHostPendingTm exEntity exTm =
      ⟨exHostPendingTm.addPendingTreeMarshal exTm,
       [OutMsg.requestEntityList exEntity exTm.EntityId], [], none⟩ ∧
    (exTree.Id, exTree) ∈
      (Host.processSendEntityList [1] mk0 exHostPendingTm exEL).1.trees := by
  have hth := sendTree_roster_resolution [1] mk0 exHostPendingTm exEntity exTm
    exEL (by decide) (by decide)
  exact ⟨(hth.1 rfl).1, hth.2.2 exTm exTree (by decide) rfl⟩

end Cothority
